import Mathlib

/-!
Formal model of the netdata turbostat collector
(src/collectors/python.d.plugin/turbostat/turbostat.chart.py).

Modelling conventions:
* Python runtime exceptions are modelled with `Except PyErr`: a `try`/`except`
  in the source corresponds to handling the error value, and an uncaught
  exception to an `Except.error` result escaping the function.
* Python `float` values produced by true division are modelled as exact
  rationals (`ℚ`).  The claims settled here concern definedness, the identity
  of the computed expressions, and signs, none of which depend on rounding.
* Python dicts are modelled as association lists in insertion order: lookup is
  first match, assignment overwrites in place or appends at the end.
* Byte strings are modelled as lists of characters (the source only ever
  compares them against ASCII constants).
-/

namespace Turbostat

/-- Python exception kinds that can arise in the modelled code. -/
inductive PyErr where
  | keyError
  | typeError
  | valueError
  | indexError
  | zeroDivisionError
deriving DecidableEq

/-- A Python value stored in a per-CPU record: an integer (the only kind the
parser produces) or a non-numeric value (to state the Delta Engine claims in
the generality the spec uses). -/
inductive Value where
  | VInt (n : Int)
  | VStr (s : String)
deriving DecidableEq

instance {ε α : Type} [DecidableEq ε] [DecidableEq α] : DecidableEq (Except ε α) := fun a b =>
  match a, b with
  | .ok x, .ok y => if h : x = y then .isTrue (by rw [h]) else .isFalse (by simp [h])
  | .error x, .error y => if h : x = y then .isTrue (by rw [h]) else .isFalse (by simp [h])
  | .ok _, .error _ => .isFalse (by simp)
  | .error _, .ok _ => .isFalse (by simp)

/-- Python true division `a / b`: raises `ZeroDivisionError` when `b == 0`. -/
def pydiv (a b : ℚ) : Except PyErr ℚ :=
  if b = 0 then .error .zeroDivisionError else .ok (a / b)

/-- First-match lookup in an association list (Python `d[k]` / `k in d`). -/
def alistLookup {α β : Type} [DecidableEq α] : List (α × β) → α → Option β
  | [], _ => none
  | (a, b) :: rest, k => if a = k then some b else alistLookup rest k

/-- Python dict assignment `d[k] = v`: overwrite in place, else append. -/
def setKey {α β : Type} [DecidableEq α] : List (α × β) → α → β → List (α × β)
  | [], k, v => [(k, v)]
  | (a, b) :: rest, k, v => if a = k then (k, v) :: rest else (a, b) :: setKey rest k v

/-- ASCII whitespace, as recognised by `bytes.strip` / `bytes.split` / `int`. -/
def isPySpace (c : Char) : Bool :=
  c == ' ' || c == '\t' || c == '\n' || c == '\r' || c == '\x0b' || c == '\x0c'

/-- Numeric value of one digit character, as Python `int` accepts them. -/
def digitVal (c : Char) : Option Nat :=
  if '0' ≤ c ∧ c ≤ '9' then some (c.toNat - '0'.toNat)
  else if 'a' ≤ c ∧ c ≤ 'z' then some (c.toNat - 'a'.toNat + 10)
  else if 'A' ≤ c ∧ c ≤ 'Z' then some (c.toNat - 'A'.toNat + 10)
  else none

/-- Strip leading and trailing whitespace (Python `int` does this first). -/
def stripWs (s : List Char) : List Char :=
  ((s.dropWhile isPySpace).reverse.dropWhile isPySpace).reverse

/-- Python `line.rstrip()`: strip trailing whitespace. -/
def rstrip (s : List Char) : List Char :=
  (s.reverse.dropWhile isPySpace).reverse

/-- Digit run accepted by Python `int` after the first digit: digits of the
base, with single underscores allowed between digits. -/
def digitsCore (base : Nat) : Nat → List Char → Option Nat
  | acc, [] => some acc
  | acc, c :: rest =>
    if c = '_' then
      match rest with
      | c2 :: rest2 =>
        match digitVal c2 with
        | some d => if d < base then digitsCore base (acc * base + d) rest2 else none
        | none => none
      | [] => none
    else
      match digitVal c with
      | some d => if d < base then digitsCore base (acc * base + d) rest else none
      | none => none

/-- Nonempty digit run, not starting with an underscore. -/
def parseDigits (base : Nat) : List Char → Option Nat
  | [] => none
  | c :: rest =>
    match digitVal c with
    | some d => if d < base then digitsCore base d rest else none
    | none => none

/-- Optional `0x`/`0X` radix marker accepted by Python `int(_, 16)`,
optionally followed by one underscore. -/
def stripHexRadix (s : List Char) : List Char :=
  match s with
  | c1 :: c2 :: rest =>
    if c1 = '0' ∧ (c2 = 'x' ∨ c2 = 'X') then
      match rest with
      | '_' :: r => r
      | r => r
    else s
  | _ => s

/-- The unsigned part of Python `int(s, base)`: optional radix prefix for
base 16, then digits. -/
def pyIntCore (base : Nat) (l : List Char) : Option Nat :=
  parseDigits base (if base == 16 then stripHexRadix l else l)

/-- The signed part of Python `int(s, base)`: optional `+`/`-` sign, then the
unsigned numeral. -/
def pySigned (base : Nat) : List Char → Option Int
  | [] => (pyIntCore base []).map (fun n => (n : Int))
  | c :: rest =>
    if c = '+' then (pyIntCore base rest).map (fun n => (n : Int))
    else if c = '-' then (pyIntCore base rest).map (fun n => -(n : Int))
    else (pyIntCore base (c :: rest)).map (fun n => (n : Int))

/-- Python `int(s, base)` for base 10 or 16 on a byte string: strip
whitespace, optional sign, optional radix prefix for base 16, digits.
Returns `none` where Python raises `ValueError`. -/
def pyInt (base : Nat) (s : List Char) : Option Int :=
  pySigned base (stripWs s)

/-- First whitespace-delimited token of a byte string: models
`value.split()[0]`, with `none` where Python raises `IndexError`. -/
def firstWsToken (s : List Char) : Option (List Char) :=
  match s.dropWhile isPySpace with
  | [] => none
  | l => some (l.takeWhile (fun x => !isPySpace x))

/-- Split a line on the first occurrence of the two-byte separator `": "`,
models `line.split(b': ', 1)`; `none` when there is no separator. -/
def splitColonSpace : List Char → Option (List Char × List Char)
  | ':' :: ' ' :: rest => some ([], rest)
  | c :: rest =>
    match splitColonSpace rest with
    | some (pre, post) => some (c :: pre, post)
    | none => none
  | [] => none

/-- Positional base-`b` value of a plain digit string (the specification's
"base-b interpretation of VALUE"). -/
def interpDigits (base : Nat) (s : List Char) : Nat :=
  s.foldl (fun acc c => acc * base + (digitVal c).getD 0) 0

/-- The source's `_BASE10_LINES` set. -/
def BASE10_LINES : List String := ["CPU", "core", "IRQ", "SMI", "package"]

/-- The source's `_parse_stat_line`.  Returns `.ok none` for "not a data
line", `.ok (some (name, value))` for a parsed field, and `.error _` where
an exception escapes (only possible in the unguarded `CPU` branch). -/
def parseStatLine (line : List Char) : Except PyErr (Option (String × Int)) :=
  match splitColonSpace line with
  | none => .ok none
  | some (namePart, valuePart) =>
    let name := String.mk namePart
    if name = "CPU" then
      match firstWsToken valuePart with
      | none => .error .indexError
      | some tok =>
        match pyInt 10 tok with
        | none => .error .valueError
        | some v => .ok (some (name, v))
    else
      match (if BASE10_LINES.contains name then pyInt 10 valuePart else pyInt 16 valuePart) with
      | none => .ok none
      | some v => .ok (some (name, v))

/-- A per-CPU record / Python dict from counter name to value. -/
abbrev PyDict := List (String × Value)

/-- Python subtraction `a - b` on record values: defined on two integers,
raises `TypeError` otherwise. -/
def pySub : Value → Value → Except PyErr Value
  | .VInt a, .VInt b => .ok (.VInt (a - b))
  | _, _ => .error .typeError

/-- The source's `_dict_delta`.  Iterates the `before` items in order and
stores `after[key] - value`; the `try` block catches only `TypeError`
(skipping the key), while a `KeyError` from `after[key]` escapes. -/
def dictDelta : PyDict → PyDict → Except PyErr PyDict
  | [], _ => .ok []
  | (k, v) :: rest, after =>
    match alistLookup after k with
    | none => .error .keyError
    | some w =>
      match pySub w v with
      | .error _ => dictDelta rest after
      | .ok d =>
        match dictDelta rest after with
        | .error e => .error e
        | .ok r => .ok ((k, d) :: r)

/-- State of `_invoke_turbostat`'s loop: the per-CPU records built so far and
the current-CPU cursor (`cpu` in the source, `None` when unset). -/
structure SnapSt where
  cpus : List (Int × PyDict)
  cur : Option Int
deriving DecidableEq

/-- Update one field of the record at index `idx` (the source's
`cpu[name] = value`, where `cpu` aliases `cpus[idx]`). -/
def updateField : List (Int × PyDict) → Int → String → Value → List (Int × PyDict)
  | [], _, _, _ => []
  | (i, r) :: rest, idx, k, v =>
    if i = idx then (i, setKey r k v) :: rest else (i, r) :: updateField rest idx k v

/-- One iteration of the `_invoke_turbostat` line loop. -/
def snapStep (st : SnapSt) (rawLine : List Char) : Except PyErr SnapSt :=
  let line := rstrip rawLine
  if line = [] then .ok { st with cur := none }
  else
    match parseStatLine line with
    | .error e => .error e
    | .ok none => .ok st
    | .ok (some (name, value)) =>
      if st.cur = none ∧ name ≠ "CPU" then .ok st
      else if name = "CPU" then
        .ok { cpus := setKey st.cpus value [("CPU", .VInt value)], cur := some value }
      else
        match st.cur with
        | some idx => .ok { st with cpus := updateField st.cpus idx name (.VInt value) }
        | none => .ok st

/-- Fold `snapStep` over the whole output stream. -/
def snapBuild : SnapSt → List (List Char) → Except PyErr SnapSt
  | st, [] => .ok st
  | st, l :: rest =>
    match snapStep st l with
    | .error e => .error e
    | .ok st2 => snapBuild st2 rest

/-- The source's `_invoke_turbostat`, over the decoded line stream of one
`turbostat --Dump` run (the timestamp is taken by the caller). -/
def invokeTurbostat (lines : List (List Char)) : Except PyErr (List (Int × PyDict)) :=
  (snapBuild ⟨[], none⟩ lines).map (fun st => st.cpus)

/-- Lines 147-153 of `_get_data`: the frequency part of the Metric Deriver.
`avg_mhz = aperf / time / 1e3` and
`busy_mhz = (tsc / 1e3) * aperf / mperf / time`, with Python division
semantics. -/
def deriveFreq (tsc aperf mperf : Int) (time : ℚ) : Except PyErr (ℚ × ℚ) :=
  pydiv (aperf : ℚ) time >>= fun a1 =>
  pydiv a1 1000 >>= fun avg =>
  pydiv (tsc : ℚ) 1000 >>= fun t1 =>
  pydiv (t1 * (aperf : ℚ)) (mperf : ℚ) >>= fun t2 =>
  pydiv t2 time >>= fun busy =>
  .ok (avg, busy)

/-- Lines 165-171 of `_get_data`: one power value,
`max(0, delta) * energy_units / time * 100.0`. -/
def wattsValue (d : Int) (eu time : ℚ) : Except PyErr ℚ :=
  (pydiv (((max 0 d : Int) : ℚ) * eu) time).map (fun w => w * 100)

/-- The parts of the service state `_get_data` reads: `self.assignment`
restricted to the `package` field it looks up, and `self.rapl`. -/
structure PollEnv where
  assignment : List (String × Int)
  rapl : List (Int × (ℚ × ℚ))

/-- Python `delta[k]` followed by arithmetic use: `KeyError` when the key is
missing, `TypeError` if the stored value were not an integer (unreachable:
`_dict_delta` only stores integers). -/
def deltaInt (delta : PyDict) (k : String) : Except PyErr Int :=
  match alistLookup delta k with
  | none => .error .keyError
  | some (.VInt n) => .ok n
  | some _ => .error .typeError

/-- The body of `_get_data`'s per-CPU loop (lines 142-171). -/
def getDataCpu (env : PollEnv) (lastT : List (Int × PyDict)) (time : ℚ)
    (data : List (String × ℚ)) (cpuidx : Int) (stats : PyDict) :
    Except PyErr (List (String × ℚ)) :=
  match alistLookup lastT cpuidx with
  | none => .error .keyError
  | some lastStats =>
    dictDelta lastStats stats >>= fun delta =>
    deltaInt delta "TSC" >>= fun tsc =>
    deltaInt delta "aperf" >>= fun aperf =>
    deltaInt delta "mperf" >>= fun mperf =>
    deriveFreq tsc aperf mperf time >>= fun freqs =>
    let cpuname := "cpu" ++ toString cpuidx
    let data := data ++ [(cpuname ++ "_avg_mhz", freqs.1), (cpuname ++ "_busy_mhz", freqs.2)]
    match alistLookup env.assignment cpuname with
    | none => .error .keyError
    | some pkgidx =>
      let pkgname := "pkg" ++ toString pkgidx
      match alistLookup env.rapl pkgidx with
      | some (_pu, eu) =>
        if alistLookup data (pkgname ++ "_ram_watts") = none then
          deltaInt delta "Joules RAM" >>= fun ramD =>
          deltaInt delta "Joules PKG" >>= fun pkgD =>
          deltaInt delta "Joules GFX" >>= fun gfxD =>
          wattsValue ramD eu time >>= fun ramW =>
          wattsValue pkgD eu time >>= fun pkgW =>
          wattsValue gfxD eu time >>= fun gfxW =>
          .ok (data ++ [(pkgname ++ "_ram_watts", ramW), (pkgname ++ "_pkg_watts", pkgW),
                        (pkgname ++ "_gfx_watts", gfxW)])
        else .ok data
      | none => .ok data

/-- The `_get_data` loop over the fresh snapshot, with
`time = now - self.last_turbostat_time` already formed. -/
def getData (env : PollEnv) (lastT : List (Int × PyDict)) (time : ℚ) :
    List (Int × PyDict) → List (String × ℚ) → Except PyErr (List (String × ℚ))
  | [], data => .ok data
  | (idx, stats) :: rest, data =>
    getDataCpu env lastT time data idx stats >>= fun data2 =>
    getData env lastT time rest data2

/-- Line 212 of `check`: `power_units = 1.0 / (1 << (msr & 0xF))`. -/
def raplPowerUnits (msr : Nat) : ℚ :=
  1 / ((1 <<< Nat.land msr 0xF : Nat) : ℚ)

/-- Line 213 of `check`: `energy_units = 1.0 / (1 << ((msr >> 8) & 0x1F))`. -/
def raplEnergyUnits (msr : Nat) : ℚ :=
  1 / ((1 <<< Nat.land (msr >>> 8) 0x1F : Nat) : ℚ)

/-- Boolean prefix test on character lists (Python `str.startswith`). -/
def isPrefixOfB : List Char → List Char → Bool
  | [], _ => true
  | _, [] => false
  | a :: as, b :: bs => a == b && isPrefixOfB as bs

/-- Python string `<`: lexicographic comparison by code point. -/
def strLtB : List Char → List Char → Bool
  | [], [] => false
  | [], _ :: _ => true
  | _ :: _, [] => false
  | a :: as, b :: bs =>
    if a.toNat < b.toNat then true
    else if b.toNat < a.toNat then false
    else strLtB as bs

/-- Python string `<=` as used by `list.sort`: total order from `strLtB`. -/
def strLeB (a b : String) : Bool := !strLtB b.data a.data

/-- Python `list.sort()` on strings: a stable sort by `strLeB`. -/
def pySortStr (l : List String) : List String :=
  List.insertionSort (fun a b => strLeB a b = true) l

/-- The source's `get_llc_dirname`, as a function of the directory names of
`/sys/devices/system/cpu/cpu0/cache` (its only input from the filesystem):
filter names starting with `index`, `sort()`, take `[-1]` (which raises
`IndexError` on an empty list). -/
def get_llc_dirname (dirnames : List String) : Except PyErr String :=
  let idx := dirnames.filter (fun nm => isPrefixOfB "index".data nm.data)
  match (pySortStr idx).getLast? with
  | some d => .ok d
  | none => .error .indexError

/-- Numeric suffix of an `indexN` directory name (used only to state which
name the specification's "maximal numeric N" denotes). -/
def indexNum (s : String) : Option Nat :=
  if isPrefixOfB "index".data s.data then parseDigits 10 (s.data.drop 5) else none

/-- One dynamically created chart line,
`[prefix + '_' + metric, nickname_prefix + nickname, 'absolute', 1, divisor]`. -/
structure DimLine where
  dim : String
  nickname : String
  algorithm : String
  multiplier : Int
  divisor : Nat
deriving DecidableEq

/-- One entry of `CHART_TEMPLATES`, with the `template.get(...)` defaults of
`check` already resolved (`_metrics` defaults to `[chart]`, `_per` to
`'logical'`, `_divisor` to `1000`, `_replace` to `[]`). -/
structure Template where
  chart : String
  metrics : List String
  per : String
  divisor : Nat
  repl : List (String × String)
deriving DecidableEq

/-- The `power` template. -/
def powerTemplate : Template :=
  ⟨"power", ["pkg_watts", "ram_watts", "gfx_watts"], "package", 100, [("_watts", "")]⟩

/-- The `avg_mhz` template. -/
def avgMhzTemplate : Template := ⟨"avg_mhz", ["avg_mhz"], "logical", 1000, []⟩

/-- The `busy_mhz` template. -/
def busyMhzTemplate : Template := ⟨"busy_mhz", ["busy_mhz"], "logical", 1000, []⟩

/-- `CHART_TEMPLATES` in dict insertion order. -/
def chartTemplates : List Template := [powerTemplate, avgMhzTemplate, busyMhzTemplate]

/-- One entry of `self.definitions`: the deep copy of the template it was
created from plus the dynamically appended lines. -/
structure ChartDef where
  tmpl : Template
  lines : List DimLine
deriving DecidableEq

/-- One entry of `self.assignment` (the fields `check` stores per CPU; the
`llc_id` comes from the filesystem collaborator). -/
structure Assign where
  cpuidx : Int
  package : Int
  core : Int
  llc_id : Int
deriving DecidableEq

/-- Fuel-indexed core of `str.replace`: replace every occurrence of the
non-empty pattern.  The fuel is the string length, which bounds the number of
steps. -/
def replaceCore (pat rep : List Char) : Nat → List Char → List Char
  | 0, s => s
  | _ + 1, [] => []
  | fuel + 1, c :: rest =>
    if isPrefixOfB pat (c :: rest) then rep ++ replaceCore pat rep fuel ((c :: rest).drop pat.length)
    else c :: replaceCore pat rep fuel rest

/-- Python `s.replace(pat, rep)`; the source only substitutes the non-empty
pattern `'_watts'`, so the empty-pattern case is left as the identity. -/
def pyReplace (s pat rep : String) : String :=
  if pat.data.isEmpty then s
  else String.mk (replaceCore pat.data rep.data s.data.length s.data)

/-- The mutable state of `check`'s chart-building section:
`self.definitions`, the `order` list of `(chartname, (pkg, core, cpu))`
pairs, and `packages_seen`. -/
structure ChartSt where
  defs : List (String × ChartDef)
  order : List (String × (Int × Int × Int))
  seen : List Int
deriving DecidableEq

/-- `self.definitions[chartname]['lines'].append(...)` for a whole metric
loop: append `ls` to the lines of the chart named `k`. -/
def appendLines : List (String × ChartDef) → String → List DimLine → List (String × ChartDef)
  | [], _, _ => []
  | (n, cd) :: rest, k, ls =>
    if n = k then (n, ⟨cd.tmpl, cd.lines ++ ls⟩) :: rest
    else (n, cd) :: appendLines rest k ls

/-- The series-name suffix chosen by `split_by` (lines 235-244), then
overridden to the package name for package-scoped templates (lines 251-252). -/
def suffixOf (split_by : Option String) (t : Template) (a : Assign) : Option String :=
  let cpuname := "cpu" ++ toString a.cpuidx
  let pkgname := "pkg" ++ toString a.package
  let corename := "core" ++ toString a.core
  let llcname := "llc" ++ toString a.llc_id
  let suffix0 : Option String :=
    if split_by = some "package" then some pkgname
    else if split_by = some "llc" then some (pkgname ++ "_" ++ llcname)
    else if split_by = some "core" then some (pkgname ++ "_" ++ corename)
    else if split_by = some "logical" then some cpuname
    else none
  if t.per = "package" then some pkgname else suffix0

/-- The chart name (lines 254-256): the template name, plus the suffix when
there is one. -/
def chartNameOf (split_by : Option String) (t : Template) (a : Assign) : String :=
  match suffixOf split_by t a with
  | some s => t.chart ++ "_" ++ s
  | none => t.chart

/-- The dimension lines appended by the metric loop (lines 262-279) for one
template and one CPU. -/
def newLinesOf (split_by : Option String) (t : Template) (a : Assign) : List DimLine :=
  let cpuname := "cpu" ++ toString a.cpuidx
  let pkgname := "pkg" ++ toString a.package
  let pre := if t.per = "package" then pkgname else cpuname
  let nickpre :=
    if t.per = "package" ∧ suffixOf split_by t a = none then pkgname ++ "_" else ""
  t.metrics.map (fun m =>
    let nick0 := if t.per = "package" then m else cpuname
    let nick := t.repl.foldl (fun s p => pyReplace s p.1 p.2) nick0
    DimLine.mk (pre ++ "_" ++ m) (nickpre ++ nick) "absolute" 1 t.divisor)

/-- The body of `check`'s inner loop (lines 225-282) for one template and
one CPU of the topology assignment. -/
def processCpu (split_by : Option String) (t : Template) (st : ChartSt) (a : Assign) : ChartSt :=
  let chartname := chartNameOf split_by t a
  let st1 :=
    if alistLookup st.defs chartname = none then
      { st with defs := st.defs ++ [(chartname, ⟨t, []⟩)],
                order := st.order ++ [(chartname, (a.package, a.core, a.cpuidx))] }
    else st
  if t.per = "package" ∧ a.package ∈ st1.seen then st1
  else
    let st2 := { st1 with defs := appendLines st1.defs chartname (newLinesOf split_by t a) }
    if t.per = "package" then { st2 with seen := st2.seen ++ [a.package] } else st2

/-- `sorted(self.assignment, key=lambda v: int(v[3:].split('_')[0]))`: the
keys are `'cpu%d' % cpuidx`, so this sorts the entries by `cpuidx`. -/
def sortAssign (l : List Assign) : List Assign :=
  List.insertionSort (fun a b => a.cpuidx ≤ b.cpuidx) l

/-- The loop over one template: iterate the sorted CPUs. -/
def processTemplate (split_by : Option String) (cpus : List Assign) (st : ChartSt)
    (t : Template) : ChartSt :=
  cpus.foldl (processCpu split_by t) st

/-- The whole chart-building section of `check` (lines 220-282), starting
from the empty `definitions` / `order` / `packages_seen` state. -/
def buildCharts (split_by : Option String) (assignment : List Assign) : ChartSt :=
  chartTemplates.foldl (processTemplate split_by (sortAssign assignment)) ⟨[], [], []⟩

/-- Python `<=` on the `(pkgidx, coreidx, cpuidx)` sort keys of `order`. -/
def tripleLe (a b : Int × Int × Int) : Bool :=
  if a.1 < b.1 then true else if b.1 < a.1 then false
  else if a.2.1 < b.2.1 then true else if b.2.1 < a.2.1 then false
  else decide (a.2.2 ≤ b.2.2)

/-- Line 285: `self.order = [name for name, topology in sorted(order, key=lambda v: v[1])]`. -/
def finalOrder (split_by : Option String) (assignment : List Assign) : List String :=
  (List.insertionSort (fun x y => tripleLe x.2 y.2 = true)
    (buildCharts split_by assignment).order).map (fun p => p.1)

/-- Total number of dimension lines across the charts created from a
package-scoped template. -/
def packageLineCount (defs : List (String × ChartDef)) : Nat :=
  (defs.map (fun e => if e.2.tmpl.per = "package" then e.2.lines.length else 0)).sum

/-! ## Theorems -/

theorem shiftLeft_one_cast (e : Nat) : ((1 <<< e : Nat) : ℚ) = 2 ^ e := by
  rw [Nat.shiftLeft_eq, one_mul]
  push_cast
  ring

/-- C9: for every raw RAPL unit register value, the decoded power unit equals
`1/2^e` with `e` the integer in bits 0-3 of the register (`msr % 16`), and the
decoded energy unit equals `1/2^e'` with `e'` the integer in bits 8-12
(`msr / 256 % 32`); in particular register 0x000A0A00 decodes to a power unit
of 1 and an energy unit of `1/2^10`. -/
theorem rapl_unit_decode :
    (∀ msr : Nat, raplPowerUnits msr = 1 / 2 ^ (msr % 16) ∧
      raplEnergyUnits msr = 1 / 2 ^ (msr / 256 % 32)) ∧
    raplPowerUnits 0x000A0A00 = 1 ∧ raplEnergyUnits 0x000A0A00 = 1 / 2 ^ 10 := by
  refine ⟨fun msr => ⟨?_, ?_⟩, ?_, ?_⟩
  · unfold raplPowerUnits
    rw [show Nat.land msr 0xF = msr % 16 from by
          have h := Nat.and_pow_two_sub_one_eq_mod msr 4
          norm_num at h
          exact h,
        shiftLeft_one_cast]
    norm_num
  · unfold raplEnergyUnits
    rw [show Nat.land (msr >>> 8) 0x1F = msr / 256 % 32 from by
          rw [Nat.shiftRight_eq_div_pow]
          have h := Nat.and_pow_two_sub_one_eq_mod (msr / 2 ^ 8) 5
          norm_num at h ⊢
          exact h,
        shiftLeft_one_cast]
    norm_num
  · unfold raplPowerUnits
    rw [show Nat.land 0x000A0A00 0xF = 0 from by decide, shiftLeft_one_cast]
    norm_num
  · unfold raplEnergyUnits
    rw [show Nat.land (0x000A0A00 >>> 8) 0x1F = 10 from by decide, shiftLeft_one_cast]
    norm_num

/-- C7: for every poll with elapsed time > 0 and every raw energy delta
(including negative ones), the emitted power value
`max(0, delta) * energy_unit / time * 100.0` is defined and never negative,
for any energy unit produced by the RAPL decoder. -/
theorem watts_nonneg (d : Int) (msr : Nat) (time : ℚ) (ht : 0 < time) :
    ∃ w, wattsValue d (raplEnergyUnits msr) time = .ok w ∧ 0 ≤ w := by
  have ht' : time ≠ 0 := ne_of_gt ht
  refine ⟨((max 0 d : Int) : ℚ) * raplEnergyUnits msr / time * 100, ?_, ?_⟩
  · simp [wattsValue, pydiv, ht', Except.map]
  · have h1 : (0 : ℚ) ≤ ((max 0 d : Int) : ℚ) := by exact_mod_cast le_max_left 0 d
    have h2 : (0 : ℚ) ≤ raplEnergyUnits msr := by
      unfold raplEnergyUnits
      positivity
    exact mul_nonneg (div_nonneg (mul_nonneg h1 h2) ht.le) (by norm_num)

/-- C7 witness: a negative delta at a concrete register value and elapsed
time still yields a defined, non-negative power value. -/
theorem watts_nonneg_witness :
    ∃ w, wattsValue (-7) (raplEnergyUnits 0x000A0A00) 1 = .ok w ∧ 0 ≤ w :=
  watts_nonneg (-7) 0x000A0A00 1 (by norm_num)

/-- C3 counterexample: with `mperf_delta = 0` the `busy_mhz` expression is
not silently skipped; the division raises `ZeroDivisionError` (the claim says
no exception arises from the division). -/
theorem busy_mhz_zero_mperf_raises :
    deriveFreq 1 1 0 1 = .error .zeroDivisionError := by
  simp only [deriveFreq, pydiv, bind, Except.bind]
  norm_num

/-- C3 (amended): when `mperf_delta = 0` the per-CPU computation raises an
uncaught `ZeroDivisionError` (so no `busy_mhz` value is produced, but not by
a silent skip), while for `mperf_delta ≠ 0` and elapsed time > 0 both
`avg_mhz = aperf / time / 1e3` and
`busy_mhz = (tsc / 1e3) * aperf / mperf / time` are defined. -/
theorem busy_mhz_guard_amended (tsc aperf mperf : Int) (time : ℚ) (ht : 0 < time) :
    deriveFreq tsc aperf 0 time = .error .zeroDivisionError ∧
    ((mperf : ℚ) ≠ 0 →
      deriveFreq tsc aperf mperf time =
        .ok ((aperf : ℚ) / time / 1000,
             (tsc : ℚ) / 1000 * (aperf : ℚ) / (mperf : ℚ) / time)) := by
  have ht' : time ≠ 0 := ne_of_gt ht
  constructor
  · simp [deriveFreq, pydiv, bind, Except.bind, ht']
  · intro hm
    simp [deriveFreq, pydiv, bind, Except.bind, ht', hm]

/-- C3 witness: the amended statement at concrete inputs. -/
theorem busy_mhz_guard_amended_witness :
    deriveFreq 2 3 0 1 = .error .zeroDivisionError ∧
    deriveFreq 2 3 4 1 = .ok (3 / 1000, 3 / 2000) := by
  constructor
  · exact (busy_mhz_guard_amended 2 3 4 1 (by norm_num)).1
  · have h := (busy_mhz_guard_amended 2 3 4 1 (by norm_num)).2 (by norm_num)
    rw [h]
    norm_num

/-- C2 counterexample: a CPU index (0) present in the new snapshot but absent
from the previous one makes the per-poll data computation raise `KeyError`
instead of yielding a metric-free poll. -/
theorem get_data_missing_cpu_raises :
    getData ⟨[], []⟩ [] 1 [(0, [("CPU", .VInt 0)])] [] = .error .keyError := by decide

/-- C2 (amended): when the per-poll loop reaches a CPU index that is absent
from the previous snapshot, `self.last_turbostat[cpuidx]` raises an uncaught
`KeyError`: the poll produces no data at all, rather than silently omitting
that CPU as a data gap. -/
theorem get_data_missing_cpu_amended (env : PollEnv) (lastT : List (Int × PyDict))
    (time : ℚ) (idx : Int) (stats : PyDict) (rest : List (Int × PyDict))
    (data : List (String × ℚ)) (h : alistLookup lastT idx = none) :
    getData env lastT time ((idx, stats) :: rest) data = .error .keyError := by
  simp [getData, getDataCpu, h, bind, Except.bind]

/-- C2 witness: the amended statement at a concrete input. -/
theorem get_data_missing_cpu_amended_witness :
    getData ⟨[], []⟩ [] 1 [(1, [])] [] = .error .keyError :=
  get_data_missing_cpu_amended ⟨[], []⟩ [] 1 1 [] [] [] rfl

def exceptToOption {ε α : Type} : Except ε α → Option α
  | .ok a => some a
  | .error _ => none

theorem alistLookup_isSome {α β : Type} [DecidableEq α] (l : List (α × β)) (k : α) :
    (alistLookup l k).isSome = true ↔ k ∈ l.map Prod.fst := by
  induction l with
  | nil => simp [alistLookup]
  | cons p rest ih =>
    obtain ⟨a, b⟩ := p
    by_cases h : a = k
    · subst h
      simp [alistLookup]
    · simp [alistLookup, h, ih, Ne.symm h]

theorem dictDelta_keyError (before after : PyDict) (p : String × Value)
    (hp : p ∈ before) (h : alistLookup after p.1 = none) :
    dictDelta before after = .error .keyError := by
  induction before with
  | nil => simp at hp
  | cons hd tl ih =>
    obtain ⟨k, v⟩ := hd
    rcases List.mem_cons.mp hp with heq | htl
    · have hk : alistLookup after k = none := by rw [heq] at h; exact h
      simp [dictDelta, hk]
    · cases hlk : alistLookup after k with
      | none => simp [dictDelta, hlk]
      | some w =>
        have hrec := ih htl
        cases hsub : pySub w v with
        | error e => simp [dictDelta, hlk, hsub, hrec]
        | ok d => simp [dictDelta, hlk, hsub, hrec]

theorem dictDelta_ok_spec (before after : PyDict)
    (hnd : (before.map Prod.fst).Nodup)
    (hall : ∀ p ∈ before, (alistLookup after p.1).isSome = true) :
    ∃ r, dictDelta before after = .ok r ∧
      (∀ k v w, alistLookup before k = some v → alistLookup after k = some w →
        alistLookup r k = exceptToOption (pySub w v)) ∧
      (∀ k, (alistLookup r k).isSome = true → (alistLookup before k).isSome = true) := by
  induction before with
  | nil => exact ⟨[], rfl, by simp [alistLookup], by simp [alistLookup]⟩
  | cons hd tl ih =>
    obtain ⟨k, v⟩ := hd
    have hk : (alistLookup after k).isSome = true := hall (k, v) (List.mem_cons_self _ _)
    obtain ⟨w, hw⟩ := Option.isSome_iff_exists.mp hk
    have hnd' : (tl.map Prod.fst).Nodup := (List.nodup_cons.mp hnd).2
    have hknotin : k ∉ tl.map Prod.fst := (List.nodup_cons.mp hnd).1
    obtain ⟨r', hr', hspec', hdom'⟩ :=
      ih hnd' (fun p hp => hall p (List.mem_cons_of_mem _ hp))
    have hr'none : alistLookup r' k = none := by
      cases hcase : alistLookup r' k with
      | none => rfl
      | some x =>
        exact absurd ((alistLookup_isSome tl k).mp (hdom' k (by rw [hcase]; rfl))) hknotin
    cases hsub : pySub w v with
    | error e =>
      refine ⟨r', by simp [dictDelta, hw, hsub, hr'], ?_, ?_⟩
      · intro k2 v2 w2 hv2 hw2
        by_cases hk2 : k = k2
        · subst hk2
          rw [show alistLookup ((k, v) :: tl) k = some v from by simp [alistLookup]] at hv2
          cases hv2
          rw [hw] at hw2
          cases hw2
          rw [hsub, hr'none]
          rfl
        · rw [show alistLookup ((k, v) :: tl) k2 = alistLookup tl k2 from by
                simp [alistLookup, hk2]] at hv2
          exact hspec' k2 v2 w2 hv2 hw2
      · intro k2 h2
        by_cases hk2 : k = k2
        · subst hk2
          simp [alistLookup]
        · rw [show alistLookup ((k, v) :: tl) k2 = alistLookup tl k2 from by
                simp [alistLookup, hk2]]
          exact hdom' k2 h2
    | ok d =>
      refine ⟨(k, d) :: r', by simp [dictDelta, hw, hsub, hr'], ?_, ?_⟩
      · intro k2 v2 w2 hv2 hw2
        by_cases hk2 : k = k2
        · subst hk2
          rw [show alistLookup ((k, v) :: tl) k = some v from by simp [alistLookup]] at hv2
          cases hv2
          rw [hw] at hw2
          cases hw2
          rw [hsub]
          simp [alistLookup]
          rfl
        · rw [show alistLookup ((k, v) :: tl) k2 = alistLookup tl k2 from by
                simp [alistLookup, hk2]] at hv2
          rw [show alistLookup ((k, d) :: r') k2 = alistLookup r' k2 from by
                simp [alistLookup, hk2]]
          exact hspec' k2 v2 w2 hv2 hw2
      · intro k2 h2
        by_cases hk2 : k = k2
        · subst hk2
          simp [alistLookup]
        · rw [show alistLookup ((k, d) :: r') k2 = alistLookup r' k2 from by
                simp [alistLookup, hk2]] at h2
          rw [show alistLookup ((k, v) :: tl) k2 = alistLookup tl k2 from by
                simp [alistLookup, hk2]]
          exact hdom' k2 h2

/-- C1 counterexample: a key of `before` ("a") that is missing from `after`
is not silently omitted; `after[key]` raises a `KeyError` that the
`except TypeError` handler does not catch, so an exception escapes
`_dict_delta`. -/
theorem dict_delta_missing_key_raises :
    dictDelta [("a", .VInt 1)] [] = .error .keyError := by decide

/-- C1 (amended): for every pair of records, when every key of `before` is
also present in `after`, `_dict_delta` returns a result mapping each key
`k` to `after[k] - before[k]` when both values support numeric subtraction
and omitting `k` when the subtraction raises `TypeError` (with no key
invented); but a key of `before` that is missing from `after` raises an
uncaught `KeyError` (only `TypeError` is caught), so an exception does
escape the delta computation in that case. -/
theorem dict_delta_amended :
    (∀ before after : PyDict, (before.map Prod.fst).Nodup →
      (∀ p ∈ before, (alistLookup after p.1).isSome = true) →
      ∃ r, dictDelta before after = .ok r ∧
        (∀ k v w, alistLookup before k = some v → alistLookup after k = some w →
          alistLookup r k = exceptToOption (pySub w v)) ∧
        (∀ k, (alistLookup r k).isSome = true → (alistLookup before k).isSome = true)) ∧
    (∀ (before after : PyDict) (p : String × Value), p ∈ before →
      alistLookup after p.1 = none → dictDelta before after = .error .keyError) :=
  ⟨dictDelta_ok_spec, dictDelta_keyError⟩

/-- C1 witness: the amended statement applied at a concrete record pair with
a key missing from `after`. -/
theorem dict_delta_amended_witness :
    dictDelta [("b", .VInt 2)] [] = .error .keyError :=
  dict_delta_amended.2 [("b", .VInt 2)] [] ("b", .VInt 2) (by decide) rfl

theorem char_toNat_inj {x y : Char} (h : x.toNat = y.toNat) : x = y := by
  rw [← Char.ofNat_toNat x, ← Char.ofNat_toNat y, h]

theorem strLtB_irrefl (a : List Char) : strLtB a a = false := by
  induction a with
  | nil => rfl
  | cons c rest ih => simp [strLtB, ih]

theorem strLtB_cons_iff (x y : Char) (xs ys : List Char) :
    strLtB (x :: xs) (y :: ys) = true ↔
      x.toNat < y.toNat ∨ (x.toNat = y.toNat ∧ strLtB xs ys = true) := by
  by_cases h1 : x.toNat < y.toNat
  · simp [strLtB, h1]
  · by_cases h2 : y.toNat < x.toNat
    · simp [strLtB, h1, h2]
      omega
    · have heq : x.toNat = y.toNat := by omega
      simp [strLtB, h1, h2, heq]

theorem strLtB_trans {a b c : List Char} (h1 : strLtB a b = true)
    (h2 : strLtB b c = true) : strLtB a c = true := by
  induction a generalizing b c with
  | nil =>
    cases b with
    | nil => simp [strLtB] at h1
    | cons y ys =>
      cases c with
      | nil => simp [strLtB] at h2
      | cons z zs => rfl
  | cons x xs ih =>
    cases b with
    | nil => simp [strLtB] at h1
    | cons y ys =>
      cases c with
      | nil => simp [strLtB] at h2
      | cons z zs =>
        rw [strLtB_cons_iff] at h1 h2 ⊢
        rcases h1 with hlt1 | ⟨heq1, ht1⟩
        · rcases h2 with hlt2 | ⟨heq2, _⟩
          · exact Or.inl (by omega)
          · exact Or.inl (by omega)
        · rcases h2 with hlt2 | ⟨heq2, ht2⟩
          · exact Or.inl (by omega)
          · exact Or.inr ⟨by omega, ih ht1 ht2⟩

theorem strLtB_total (a b : List Char) :
    strLtB a b = true ∨ strLtB b a = true ∨ a = b := by
  induction a generalizing b with
  | nil =>
    cases b with
    | nil => exact Or.inr (Or.inr rfl)
    | cons y ys => exact Or.inl rfl
  | cons x xs ih =>
    cases b with
    | nil => exact Or.inr (Or.inl rfl)
    | cons y ys =>
      rcases Nat.lt_trichotomy x.toNat y.toNat with hlt | heq | hgt
      · exact Or.inl ((strLtB_cons_iff x y xs ys).mpr (Or.inl hlt))
      · rcases ih ys with h | h | h
        · exact Or.inl ((strLtB_cons_iff x y xs ys).mpr (Or.inr ⟨heq, h⟩))
        · exact Or.inr (Or.inl ((strLtB_cons_iff y x ys xs).mpr (Or.inr ⟨heq.symm, h⟩)))
        · exact Or.inr (Or.inr (by rw [char_toNat_inj heq, h]))
      · exact Or.inr (Or.inl ((strLtB_cons_iff y x ys xs).mpr (Or.inl hgt)))

theorem strLtB_asymm {a b : List Char} (h : strLtB a b = true) :
    strLtB b a = false := by
  cases hba : strLtB b a with
  | false => rfl
  | true => exact absurd (strLtB_trans h hba) (by simp [strLtB_irrefl])

instance : IsTotal String (fun a b => strLeB a b = true) := by
  constructor
  intro a b
  cases hba : strLtB b.data a.data with
  | false => exact Or.inl (by simp [strLeB, hba])
  | true => exact Or.inr (by simp [strLeB, strLtB_asymm hba])

instance : IsTrans String (fun a b => strLeB a b = true) := by
  constructor
  intro a b c hab hbc
  have hba : strLtB b.data a.data = false := by
    simpa [strLeB] using hab
  have hcb : strLtB c.data b.data = false := by
    simpa [strLeB] using hbc
  simp only [strLeB, Bool.not_eq_true']
  cases hca : strLtB c.data a.data with
  | false => rfl
  | true =>
    exfalso
    rcases strLtB_total a.data b.data with h | h | h
    · rcases strLtB_total b.data c.data with h2 | h2 | h2
      · exact absurd (strLtB_trans (strLtB_trans h h2) hca) (by simp [strLtB_irrefl])
      · rw [h2] at hcb
        exact absurd hcb (by simp [hca])
      · rw [h2] at h
        exact absurd (strLtB_trans h hca) (by simp [strLtB_irrefl])
    · rw [h] at hba
      simp at hba
    · rw [h] at hca
      rcases strLtB_total b.data c.data with h2 | h2 | h2
      · exact absurd (strLtB_trans h2 hca) (by simp [strLtB_irrefl])
      · rw [h2] at hcb
        exact absurd hcb (by simp [hca])
      · rw [h2] at hca
        exact absurd hca (by simp [strLtB_irrefl])

theorem getLast?_mem' {α : Type} : ∀ {l : List α} {m : α}, l.getLast? = some m → m ∈ l := by
  intro l
  induction l with
  | nil => intro m h; simp at h
  | cons a t ih =>
    intro m h
    cases t with
    | nil =>
      simp [List.getLast?] at h
      simp [h]
    | cons b t2 =>
      rw [List.getLast?_cons_cons] at h
      exact List.mem_cons_of_mem _ (ih h)

theorem sorted_getLast?_ub {α : Type} {r : α → α → Prop} :
    ∀ {l : List α}, List.Sorted r l → ∀ {m : α}, l.getLast? = some m →
      ∀ x ∈ l, x = m ∨ r x m := by
  intro l
  induction l with
  | nil => intro _ m h; simp at h
  | cons a t ih =>
    intro hs m hm x hx
    obtain ⟨ha, ht⟩ := List.sorted_cons.mp hs
    cases t with
    | nil =>
      simp [List.getLast?] at hm
      rcases List.mem_singleton.mp hx with rfl
      exact Or.inl hm
    | cons b t2 =>
      rw [List.getLast?_cons_cons] at hm
      rcases List.mem_cons.mp hx with rfl | hx2
      · exact Or.inr (ha m (getLast?_mem' hm))
      · exact ih ht hm x hx2

/-- C10 counterexample: among cache directories `index2` and `index10` the
source picks `index2` (the lexicographic maximum of the `sort()` call), not
`index10`, whose numeric suffix 10 is the maximal N. -/
theorem llc_dirname_numeric_cex :
    get_llc_dirname ["index2", "index10"] = .ok "index2" ∧
      indexNum "index2" = some 2 ∧ indexNum "index10" = some 10 := by decide

/-- C10 (amended): the topology lookup selects the lexicographically greatest
(by code-point string order, as Python `list.sort` orders `str`) of the
`index`-prefixed directory names, which coincides with the numerically
highest `indexN` only when the numerals compare alike as strings. -/
theorem llc_dirname_lex_max_amended (dirnames : List String) (d : String)
    (h : get_llc_dirname dirnames = .ok d) :
    d ∈ dirnames ∧ isPrefixOfB "index".data d.data = true ∧
      ∀ x ∈ dirnames, isPrefixOfB "index".data x.data = true → strLeB x d = true := by
  simp only [get_llc_dirname] at h
  cases hlast : (pySortStr (dirnames.filter (fun nm => isPrefixOfB "index".data nm.data))).getLast? with
  | none => rw [hlast] at h; cases h
  | some m =>
    rw [hlast] at h
    cases h
    have hperm := List.perm_insertionSort
      (fun a b => strLeB a b = true)
      (dirnames.filter (fun nm => isPrefixOfB "index".data nm.data))
    have hdm : d ∈ dirnames.filter (fun nm => isPrefixOfB "index".data nm.data) :=
      hperm.mem_iff.mp (getLast?_mem' hlast)
    refine ⟨(List.mem_filter.mp hdm).1, (List.mem_filter.mp hdm).2, ?_⟩
    intro x hx hpx
    have hxidx : x ∈ dirnames.filter (fun nm => isPrefixOfB "index".data nm.data) :=
      List.mem_filter.mpr ⟨hx, hpx⟩
    have hsorted := List.sorted_insertionSort
      (fun a b => strLeB a b = true)
      (dirnames.filter (fun nm => isPrefixOfB "index".data nm.data))
    rcases sorted_getLast?_ub hsorted hlast x (hperm.mem_iff.mpr hxidx) with rfl | hle
    · simp [strLeB, strLtB_irrefl]
    · exact hle

/-- C10 witness: the amended statement at a concrete directory listing. -/
theorem llc_dirname_lex_max_amended_witness :
    "index1" ∈ ["index0", "index1"] ∧
      isPrefixOfB "index".data "index1".data = true ∧
      ∀ x ∈ ["index0", "index1"], isPrefixOfB "index".data x.data = true →
        strLeB x "index1" = true :=
  llc_dirname_lex_max_amended ["index0", "index1"] "index1" (by decide)

/-- C4 counterexample: a `CPU` line with a non-numeric value raises an
uncaught `ValueError` (and one with an empty value an `IndexError`), because
the `int(value.split()[0])` of the `CPU` branch sits outside the `try`
block; the claim says no field name can make the parser raise. -/
theorem parse_stat_line_cpu_raises :
    parseStatLine ("CPU: x".data) = .error .valueError ∧
    parseStatLine ("CPU: ".data) = .error .indexError := by decide

/-- C4 (amended): every line either yields a parsed pair or the
"not a data line" result `none`; a line without the `": "` separator always
yields `none` without raising, and a parse failure for any name other than
`CPU` yields `none` for that line only; but an exception can escape (and
does, per the counterexample) only in the `CPU` branch. -/
theorem parse_stat_line_amended (line : List Char) :
    (splitColonSpace line = none → parseStatLine line = .ok none) ∧
    (∀ np vp, splitColonSpace line = some (np, vp) → String.mk np ≠ "CPU" →
      ∃ res, parseStatLine line = .ok res) ∧
    (∀ e, parseStatLine line = .error e →
      ∃ vp, splitColonSpace line = some ("CPU".data, vp)) := by
  refine ⟨?_, ?_, ?_⟩
  · intro h
    simp [parseStatLine, h]
  · intro np vp hsp hne
    simp only [parseStatLine, hsp]
    rw [if_neg hne]
    cases hpi : (if BASE10_LINES.contains (String.mk np) then pyInt 10 vp else pyInt 16 vp) with
    | none => exact ⟨none, rfl⟩
    | some v => exact ⟨some (String.mk np, v), rfl⟩
  · intro e herr
    cases hsp : splitColonSpace line with
    | none => simp [parseStatLine, hsp] at herr
    | some pr =>
      obtain ⟨np, vp⟩ := pr
      by_cases hcpu : String.mk np = "CPU"
      · have hnp : np = "CPU".data := congrArg String.data hcpu
        subst hnp
        exact ⟨vp, rfl⟩
      · exfalso
        simp only [parseStatLine, hsp] at herr
        rw [if_neg hcpu] at herr
        cases hpi : (if BASE10_LINES.contains (String.mk np) then pyInt 10 vp else pyInt 16 vp) with
        | none => rw [hpi] at herr; cases herr
        | some v => rw [hpi] at herr; cases herr

/-- C4 witness: the amended statement at a concrete separator-free line. -/
theorem parse_stat_line_amended_witness :
    parseStatLine ("hello".data) = .ok none :=
  (parse_stat_line_amended ("hello".data)).1 (by decide)

theorem digit_not_space {c : Char} {d : Nat} (h : digitVal c = some d) :
    isPySpace c = false := by
  cases hsp : isPySpace c with
  | false => rfl
  | true =>
    exfalso
    have hmem : c ∈ [' ', '\t', '\n', '\r', '\x0b', '\x0c'] := by
      simp only [isPySpace, Bool.or_eq_true, beq_iff_eq] at hsp
      rcases hsp with ((((h1 | h1) | h1) | h1) | h1) | h1 <;> simp [h1]
    have hall : ∀ x ∈ [' ', '\t', '\n', '\r', '\x0b', '\x0c'], digitVal x = none := by decide
    rw [hall c hmem] at h
    exact Option.noConfusion h

theorem dropWhile_eq_self_of {p : Char → Bool} (l : List Char)
    (h : ∀ c ∈ l, p c = false) : l.dropWhile p = l := by
  cases l with
  | nil => rfl
  | cons c rest =>
    rw [List.dropWhile_cons, if_neg]
    simp [h c (List.mem_cons_self _ _)]

theorem stripWs_eq_self (s : List Char) (h : ∀ c ∈ s, isPySpace c = false) :
    stripWs s = s := by
  unfold stripWs
  rw [dropWhile_eq_self_of s h,
      dropWhile_eq_self_of s.reverse (fun c hc => h c (List.mem_reverse.mp hc)),
      List.reverse_reverse]

theorem digitsCore_cons (base acc : Nat) (c : Char) (rest : List Char) :
    digitsCore base acc (c :: rest) =
      if c = '_' then
        match rest with
        | c2 :: rest2 =>
          match digitVal c2 with
          | some d => if d < base then digitsCore base (acc * base + d) rest2 else none
          | none => none
        | [] => none
      else
        match digitVal c with
        | some d => if d < base then digitsCore base (acc * base + d) rest else none
        | none => none := by
  rw [digitsCore.eq_def]

theorem parseDigits_cons (base : Nat) (c : Char) (rest : List Char) :
    parseDigits base (c :: rest) =
      match digitVal c with
      | some d => if d < base then digitsCore base d rest else none
      | none => none := by
  rw [parseDigits.eq_def]

theorem stripHexRadix_two (c1 c2 : Char) (rest : List Char) :
    stripHexRadix (c1 :: c2 :: rest) =
      if c1 = '0' ∧ (c2 = 'x' ∨ c2 = 'X') then
        match rest with
        | '_' :: r => r
        | r => r
      else c1 :: c2 :: rest := by
  rw [stripHexRadix.eq_def]

theorem pySigned_cons (base : Nat) (c : Char) (rest : List Char) :
    pySigned base (c :: rest) =
      if c = '+' then (pyIntCore base rest).map (fun n => (n : Int))
      else if c = '-' then (pyIntCore base rest).map (fun n => -(n : Int))
      else (pyIntCore base (c :: rest)).map (fun n => (n : Int)) := by
  rw [pySigned.eq_def]

theorem digitsCore_all_digits (base : Nat) :
    ∀ (s : List Char) (acc : Nat),
      (∀ c ∈ s, ∃ d, digitVal c = some d ∧ d < base) →
      digitsCore base acc s =
        some (s.foldl (fun a c => a * base + (digitVal c).getD 0) acc) := by
  intro s
  induction s with
  | nil => intro acc _; rfl
  | cons c rest ih =>
    intro acc h
    obtain ⟨d, hd, hdb⟩ := h c (List.mem_cons_self _ _)
    have hc : ¬(c = '_') := by
      intro hc
      rw [hc, show digitVal '_' = none from by decide] at hd
      exact Option.noConfusion hd
    rw [digitsCore_cons, if_neg hc, hd]
    change (if d < base then digitsCore base (acc * base + d) rest else none) = _
    rw [if_pos hdb, ih _ (fun x hx => h x (List.mem_cons_of_mem _ hx))]
    simp [hd]

theorem parseDigits_all_digits (base : Nat) (s : List Char) (hne : s ≠ [])
    (h : ∀ c ∈ s, ∃ d, digitVal c = some d ∧ d < base) :
    parseDigits base s = some (interpDigits base s) := by
  cases s with
  | nil => exact absurd rfl hne
  | cons c rest =>
    obtain ⟨d, hd, hdb⟩ := h c (List.mem_cons_self _ _)
    rw [parseDigits_cons, hd]
    change (if d < base then digitsCore base d rest else none) = _
    rw [if_pos hdb, digitsCore_all_digits base rest d (fun x hx => h x (List.mem_cons_of_mem _ hx))]
    simp [interpDigits, hd]

theorem stripHexRadix_of_digits : ∀ (s : List Char),
    (∀ c ∈ s, ∃ d, digitVal c = some d ∧ d < 16) → stripHexRadix s = s
  | [], _ => rfl
  | [_], _ => rfl
  | c1 :: c2 :: rest, h => by
    have hcond : ¬(c1 = '0' ∧ (c2 = 'x' ∨ c2 = 'X')) := by
      rintro ⟨_, hx | hx⟩ <;>
        · obtain ⟨d, hd, hdb⟩ := h c2 (by simp)
          rw [hx, show digitVal _ = some 33 from by decide] at hd
          cases hd
          omega
    rw [stripHexRadix_two, if_neg hcond]

theorem pyInt_all_digits (base : Nat) (s : List Char) (hne : s ≠ [])
    (h : ∀ c ∈ s, ∃ d, digitVal c = some d ∧ d < base) :
    pyInt base s = some ((interpDigits base s : Nat) : Int) := by
  have hns : ∀ c ∈ s, isPySpace c = false := fun c hc => by
    obtain ⟨d, hd, _⟩ := h c hc
    exact digit_not_space hd
  simp only [pyInt]
  rw [stripWs_eq_self s hns]
  cases s with
  | nil => exact absurd rfl hne
  | cons c rest =>
    obtain ⟨d, hd, hdb⟩ := h c (List.mem_cons_self _ _)
    have hplus : ¬(c = '+') := by
      intro hc
      rw [hc, show digitVal '+' = none from by decide] at hd
      exact Option.noConfusion hd
    have hminus : ¬(c = '-') := by
      intro hc
      rw [hc, show digitVal '-' = none from by decide] at hd
      exact Option.noConfusion hd
    have hstrip : pyIntCore base (c :: rest) = parseDigits base (c :: rest) := by
      unfold pyIntCore
      cases hb : base == 16 with
      | false => simp only [hb, Bool.false_eq_true, if_false]
      | true =>
        have hb16 : base = 16 := by simpa using hb
        simp only [hb, if_true]
        rw [stripHexRadix_of_digits _ (fun x hx => by
          obtain ⟨d2, hd2, hdb2⟩ := h x hx
          exact ⟨d2, hd2, by omega⟩)]
    rw [pySigned_cons, if_neg hplus, if_neg hminus, hstrip,
        parseDigits_all_digits base (c :: rest) (by simp) h]
    rfl

/-- C5: for every parsed `NAME: VALUE` line, the value stored for a name in
the fixed base-10 set is Python `int(VALUE, 10)` (for `CPU`, of VALUE's first
whitespace-delimited token) and for every other name Python `int(VALUE, 16)`;
and on plain digit strings that reading is exactly the positional base-10 or
base-16 interpretation. -/
theorem parse_stat_line_bases :
    (∀ (line np vp : List Char) (v : Int),
      splitColonSpace line = some (np, vp) →
      parseStatLine line = .ok (some (String.mk np, v)) →
      ((String.mk np = "CPU" → ∃ tok, firstWsToken vp = some tok ∧ pyInt 10 tok = some v) ∧
       (String.mk np ≠ "CPU" → String.mk np ∈ BASE10_LINES → pyInt 10 vp = some v) ∧
       (String.mk np ∉ BASE10_LINES → pyInt 16 vp = some v))) ∧
    (∀ (base : Nat) (s : List Char), s ≠ [] →
      (∀ c ∈ s, ∃ d, digitVal c = some d ∧ d < base) →
      pyInt base s = some ((interpDigits base s : Nat) : Int)) := by
  refine ⟨?_, pyInt_all_digits⟩
  intro line np vp v hsp hok
  refine ⟨?_, ?_, ?_⟩
  · intro hcpu
    simp only [parseStatLine, hsp] at hok
    rw [if_pos hcpu] at hok
    split at hok
    · exact absurd hok (by simp)
    · rename_i tok hft
      split at hok
      · exact absurd hok (by simp)
      · rename_i v2 hpi
        have hv : v2 = v := by simpa using hok
        exact ⟨tok, hft, hv ▸ hpi⟩
  · intro hne hmem
    simp only [parseStatLine, hsp] at hok
    rw [if_neg hne] at hok
    have hcont : BASE10_LINES.contains (String.mk np) = true := by
      rw [List.contains_eq_any_beq]
      simp only [List.any_eq_true, beq_iff_eq]
      exact ⟨String.mk np, hmem, rfl⟩
    rw [if_pos hcont] at hok
    split at hok
    · exact absurd hok (by simp)
    · rename_i v2 hpi
      have hv : v2 = v := by simpa using hok
      exact hv ▸ hpi
  · intro hnmem
    have hne : ¬(String.mk np = "CPU") := by
      intro hc
      exact hnmem (by rw [hc]; simp [BASE10_LINES])
    simp only [parseStatLine, hsp] at hok
    rw [if_neg hne] at hok
    have hcont : ¬(BASE10_LINES.contains (String.mk np) = true) := by
      rw [List.contains_eq_any_beq]
      simp only [List.any_eq_true, beq_iff_eq, not_exists, not_and]
      intro x hx hx2
      exact absurd (hx2 ▸ hx) hnmem
    rw [if_neg hcont] at hok
    split at hok
    · exact absurd hok (by simp)
    · rename_i v2 hpi
      have hv : v2 = v := by simpa using hok
      exact hv ▸ hpi

/-- C5 witness: the two parts at concrete inputs (the parsed line `core: 12`
and the plain numeral `42`). -/
theorem parse_stat_line_bases_witness :
    pyInt 10 ("42".data) = some ((interpDigits 10 ("42".data) : Nat) : Int) :=
  parse_stat_line_bases.2 10 ("42".data) (by decide) (by decide)

theorem updateField_keys (cpus : List (Int × PyDict)) (idx : Int) (k : String) (v : Value) :
    (updateField cpus idx k v).map Prod.fst = cpus.map Prod.fst := by
  induction cpus with
  | nil => rfl
  | cons p rest ih =>
    obtain ⟨i, r⟩ := p
    by_cases h : i = idx
    · simp [updateField, h]
    · simp [updateField, h, ih]

theorem setKey_keys_mem {α β : Type} [DecidableEq α] (l : List (α × β)) (k : α) (v : β)
    (k2 : α) : k2 ∈ (setKey l k v).map Prod.fst ↔ k2 = k ∨ k2 ∈ l.map Prod.fst := by
  induction l with
  | nil => simp [setKey]
  | cons p rest ih =>
    obtain ⟨a, b⟩ := p
    by_cases h : a = k
    · subst h
      simp [setKey]
    · simp [setKey, h, ih]
      tauto

theorem snapStep_key_origin (st : SnapSt) (line : List Char) (st2 : SnapSt)
    (h : snapStep st line = .ok st2) (idx : Int)
    (hidx : (alistLookup st2.cpus idx).isSome = true) :
    (alistLookup st.cpus idx).isSome = true ∨
      parseStatLine (rstrip line) = .ok (some ("CPU", idx)) := by
  simp only [snapStep] at h
  split at h
  · cases h
    exact Or.inl hidx
  · split at h
    · cases h
    · cases h
      exact Or.inl hidx
    · rename_i name value hp
      split at h
      · cases h
        exact Or.inl hidx
      · split at h
        · rename_i hcpu
          cases h
          rcases (setKey_keys_mem st.cpus value [("CPU", .VInt value)] idx).mp
              ((alistLookup_isSome _ idx).mp hidx) with heq | hin
          · subst heq
            rw [hcpu] at hp
            exact Or.inr hp
          · exact Or.inl ((alistLookup_isSome _ idx).mpr hin)
        · split at h
          · cases h
            rw [alistLookup_isSome, updateField_keys] at hidx
            exact Or.inl ((alistLookup_isSome _ idx).mpr hidx)
          · cases h
            exact Or.inl hidx

theorem snapBuild_keys : ∀ (lines : List (List Char)) (st st' : SnapSt),
    snapBuild st lines = .ok st' →
    ∀ idx, (alistLookup st'.cpus idx).isSome = true →
      (alistLookup st.cpus idx).isSome = true ∨
        ∃ l ∈ lines, parseStatLine (rstrip l) = .ok (some ("CPU", idx)) := by
  intro lines
  induction lines with
  | nil =>
    intro st st' h idx hidx
    cases h
    exact Or.inl hidx
  | cons l rest ih =>
    intro st st' h idx hidx
    simp only [snapBuild] at h
    cases hstep : snapStep st l with
    | error e => rw [hstep] at h; cases h
    | ok st2 =>
      rw [hstep] at h
      rcases ih st2 st' h idx hidx with hin | ⟨l2, hl2, hp2⟩
      · rcases snapStep_key_origin st l st2 hstep idx hin with hin0 | hcpu
        · exact Or.inl hin0
        · exact Or.inr ⟨l, by simp, hcpu⟩
      · exact Or.inr ⟨l2, by simp [hl2], hp2⟩

/-- C6: the Snapshot Builder emits a per-CPU record only for CPU indices that
appeared as the value of a parsed `CPU` field of some input line; and a
parsed non-`CPU` field arriving while the current-CPU cursor is unset
(including after a blank-line reset) leaves the builder state completely
unchanged, so it appears in no record. -/
theorem snapshot_builder_cpu_keys :
    (∀ (lines : List (List Char)) (cpus : List (Int × PyDict)),
      invokeTurbostat lines = .ok cpus →
      ∀ idx, (alistLookup cpus idx).isSome = true →
        ∃ l ∈ lines, parseStatLine (rstrip l) = .ok (some ("CPU", idx))) ∧
    (∀ (st : SnapSt) (line : List Char) (name : String) (value : Int),
      st.cur = none →
      parseStatLine (rstrip line) = .ok (some (name, value)) →
      name ≠ "CPU" →
      snapStep st line = .ok st) := by
  constructor
  · intro lines cpus hinv idx hidx
    unfold invokeTurbostat at hinv
    cases hb : snapBuild ⟨[], none⟩ lines with
    | error e => rw [hb] at hinv; cases hinv
    | ok st' =>
      rw [hb] at hinv
      cases hinv
      rcases snapBuild_keys lines ⟨[], none⟩ st' hb idx hidx with h0 | h
      · simp [alistLookup] at h0
      · exact h
  · intro st line name value hcur hp hname
    simp only [snapStep]
    have hne : rstrip line ≠ [] := by
      intro he
      rw [he] at hp
      simp [parseStatLine, splitColonSpace] at hp
    rw [if_neg hne, hp]
    show (if st.cur = none ∧ name ≠ "CPU" then (Except.ok st : Except PyErr SnapSt) else _) =
      Except.ok st
    rw [if_pos ⟨hcur, hname⟩]

/-- C6 witness: the builder applied to the single line `CPU: 0` yields a
record for index 0, and indeed that index appeared under a `CPU` field. -/
theorem snapshot_builder_cpu_keys_witness :
    ∃ l ∈ [("CPU: 0".data)], parseStatLine (rstrip l) = .ok (some ("CPU", 0)) :=
  snapshot_builder_cpu_keys.1 [("CPU: 0".data)] [(0, [("CPU", .VInt 0)])] (by decide) 0
    (by decide)

theorem alistLookup_eq_none_iff {α β : Type} [DecidableEq α] (l : List (α × β)) (k : α) :
    alistLookup l k = none ↔ k ∉ l.map Prod.fst := by
  rw [← alistLookup_isSome]
  cases alistLookup l k <;> simp

theorem appendLines_keys (defs : List (String × ChartDef)) (k : String) (ls : List DimLine) :
    (appendLines defs k ls).map Prod.fst = defs.map Prod.fst := by
  induction defs with
  | nil => rfl
  | cons e rest ih =>
    obtain ⟨n, cd⟩ := e
    by_cases h : n = k
    · simp [appendLines, h]
    · simp [appendLines, h, ih]

theorem appendLines_pres (P : String → Template → Prop) (defs : List (String × ChartDef))
    (k : String) (ls : List DimLine) (h : ∀ e ∈ defs, P e.1 e.2.tmpl) :
    ∀ e ∈ appendLines defs k ls, P e.1 e.2.tmpl := by
  induction defs with
  | nil => intro e he; simp [appendLines] at he
  | cons e0 rest ih =>
    obtain ⟨n, cd⟩ := e0
    intro e he
    by_cases hn : n = k
    · simp only [appendLines, if_pos hn] at he
      rcases List.mem_cons.mp he with rfl | hrest
      · exact h (n, cd) (List.mem_cons_self _ _)
      · exact h e (List.mem_cons_of_mem _ hrest)
    · simp only [appendLines, if_neg hn] at he
      rcases List.mem_cons.mp he with rfl | hrest
      · exact h (n, cd) (List.mem_cons_self _ _)
      · exact ih (fun e2 he2 => h e2 (List.mem_cons_of_mem _ he2)) e hrest

theorem packageLineCount_append (d1 d2 : List (String × ChartDef)) :
    packageLineCount (d1 ++ d2) = packageLineCount d1 + packageLineCount d2 := by
  simp [packageLineCount]

theorem packageLineCount_new_chart (defs : List (String × ChartDef)) (cn : String)
    (t : Template) :
    packageLineCount (defs ++ [(cn, ⟨t, []⟩)]) = packageLineCount defs := by
  rw [packageLineCount_append]
  simp [packageLineCount]

theorem appendLines_plc_pkg (defs : List (String × ChartDef)) (k : String) (ls : List DimLine)
    (hall : ∀ e ∈ defs, e.2.tmpl.per = "package")
    (hk : k ∈ defs.map Prod.fst) :
    packageLineCount (appendLines defs k ls) = packageLineCount defs + ls.length := by
  induction defs with
  | nil => simp at hk
  | cons e0 rest ih =>
    obtain ⟨n, cd⟩ := e0
    by_cases hn : n = k
    · have hper : cd.tmpl.per = "package" := hall (n, cd) (List.mem_cons_self _ _)
      simp only [appendLines, if_pos hn, packageLineCount, List.map_cons, List.sum_cons]
      rw [if_pos hper, if_pos hper]
      simp only [List.length_append]
      omega
    · have hk2 : k ∈ rest.map Prod.fst := by
        rw [List.map_cons] at hk
        rcases List.mem_cons.mp hk with h | h
        · exact absurd h.symm hn
        · exact h
      simp only [appendLines, if_neg hn, packageLineCount, List.map_cons, List.sum_cons]
      have := ih (fun e he => hall e (List.mem_cons_of_mem _ he)) hk2
      simp only [packageLineCount] at this
      omega

theorem appendLines_plc_other (defs : List (String × ChartDef)) (k : String) (ls : List DimLine)
    (hall : ∀ e ∈ defs, e.2.tmpl.per = "package" → e.1.data.head? = some 'p')
    (hk : ¬(k.data.head? = some 'p')) :
    packageLineCount (appendLines defs k ls) = packageLineCount defs := by
  induction defs with
  | nil => rfl
  | cons e0 rest ih =>
    obtain ⟨n, cd⟩ := e0
    by_cases hn : n = k
    · have hper : ¬(cd.tmpl.per = "package") := by
        intro hper
        exact hk (hn ▸ hall (n, cd) (List.mem_cons_self _ _) hper)
      simp only [appendLines, if_pos hn, packageLineCount, List.map_cons, List.sum_cons]
      rw [if_neg hper, if_neg hper]
    · simp only [appendLines, if_neg hn, packageLineCount, List.map_cons, List.sum_cons]
      have := ih (fun e he => hall e (List.mem_cons_of_mem _ he))
      simp only [packageLineCount] at this
      omega

theorem newLinesOf_length (sb : Option String) (t : Template) (a : Assign) :
    (newLinesOf sb t a).length = t.metrics.length := by
  simp [newLinesOf]

theorem chartNameOf_head (sb : Option String) (t : Template) (a : Assign) (c : Char)
    (l : List Char) (hc : t.chart.data = c :: l) :
    (chartNameOf sb t a).data.head? = some c := by
  unfold chartNameOf
  cases hs : suffixOf sb t a with
  | none => rw [hc]; rfl
  | some s =>
    rw [String.data_append, String.data_append, hc]
    rfl

theorem processCpu_inv1 (sb : Option String) (t : Template) (st : ChartSt) (a : Assign)
    (h1 : st.defs.map Prod.fst = st.order.map Prod.fst)
    (h2 : (st.order.map Prod.fst).Nodup) :
    (processCpu sb t st a).defs.map Prod.fst = (processCpu sb t st a).order.map Prod.fst ∧
    ((processCpu sb t st a).order.map Prod.fst).Nodup := by
  by_cases hnew : alistLookup st.defs (chartNameOf sb t a) = none
  · have hnotin : chartNameOf sb t a ∉ st.order.map Prod.fst := by
      rw [← h1]
      exact (alistLookup_eq_none_iff _ _).mp hnew
    by_cases hper : t.per = "package" <;> by_cases hmem : a.package ∈ st.seen <;>
      simp [processCpu, hnew, hper, hmem, appendLines_keys, List.map_append, h1, h2,
        List.nodup_append, hnotin]
  · by_cases hper : t.per = "package" <;> by_cases hmem : a.package ∈ st.seen <;>
      simp [processCpu, hnew, hper, hmem, appendLines_keys, List.map_append, h1, h2]

theorem power_chart_head (sb : Option String) (a : Assign) :
    (chartNameOf sb powerTemplate a).data.head? = some 'p' :=
  chartNameOf_head sb powerTemplate a 'p' ("ower".data) (by decide)

theorem power_step (sb : Option String) (st : ChartSt) (a : Assign)
    (hdefs : ∀ e ∈ st.defs, e.2.tmpl = powerTemplate ∧ e.1.data.head? = some 'p')
    (hcount : packageLineCount st.defs = 3 * st.seen.length)
    (hnd : st.seen.Nodup) :
    (∀ e ∈ (processCpu sb powerTemplate st a).defs,
        e.2.tmpl = powerTemplate ∧ e.1.data.head? = some 'p') ∧
    packageLineCount (processCpu sb powerTemplate st a).defs =
      3 * (processCpu sb powerTemplate st a).seen.length ∧
    (processCpu sb powerTemplate st a).seen.Nodup ∧
    (processCpu sb powerTemplate st a).seen =
      st.seen ++ (if a.package ∈ st.seen then [] else [a.package]) := by
  have hperT : (powerTemplate.per = "package") = True := eq_true rfl
  have hlen : (newLinesOf sb powerTemplate a).length = 3 := by
    rw [newLinesOf_length]
    rfl
  have hdefs1 : ∀ e ∈ st.defs ++
      [(chartNameOf sb powerTemplate a, (⟨powerTemplate, []⟩ : ChartDef))],
      e.2.tmpl = powerTemplate ∧ e.1.data.head? = some 'p' := by
    intro e he
    rcases List.mem_append.mp he with h | h
    · exact hdefs e h
    · rcases List.mem_singleton.mp h with rfl
      exact ⟨rfl, power_chart_head sb a⟩
  by_cases hmem : a.package ∈ st.seen
  · by_cases hnew : alistLookup st.defs (chartNameOf sb powerTemplate a) = none
    · have hred : processCpu sb powerTemplate st a =
          ⟨st.defs ++ [(chartNameOf sb powerTemplate a, ⟨powerTemplate, []⟩)],
           st.order ++ [(chartNameOf sb powerTemplate a, (a.package, a.core, a.cpuidx))],
           st.seen⟩ := by
        simp [processCpu, hnew, hmem, hperT]
      rw [hred]
      refine ⟨hdefs1, ?_, hnd, by simp [hmem]⟩
      rw [packageLineCount_new_chart]
      exact hcount
    · have hred : processCpu sb powerTemplate st a = st := by
        simp [processCpu, hnew, hmem, hperT]
      rw [hred]
      exact ⟨hdefs, hcount, hnd, by simp [hmem]⟩
  · by_cases hnew : alistLookup st.defs (chartNameOf sb powerTemplate a) = none
    · have hred : processCpu sb powerTemplate st a =
          ⟨appendLines
             (st.defs ++ [(chartNameOf sb powerTemplate a, ⟨powerTemplate, []⟩)])
             (chartNameOf sb powerTemplate a) (newLinesOf sb powerTemplate a),
           st.order ++ [(chartNameOf sb powerTemplate a, (a.package, a.core, a.cpuidx))],
           st.seen ++ [a.package]⟩ := by
        simp [processCpu, hnew, hmem, hperT]
      rw [hred]
      refine ⟨appendLines_pres
          (fun n t => t = powerTemplate ∧ n.data.head? = some 'p') _ _ _ hdefs1,
        ?_, ?_, by simp [hmem]⟩
      · show packageLineCount _ = 3 * (st.seen ++ [a.package]).length
        rw [appendLines_plc_pkg _ _ _
              (fun e he => ((hdefs1 e he).1 ▸ rfl : e.2.tmpl.per = "package"))
              (by simp),
            hlen, packageLineCount_new_chart, hcount]
        simp [Nat.mul_add]
      · show (st.seen ++ [a.package]).Nodup
        simp [List.nodup_append, hnd, hmem]
    · have hk : chartNameOf sb powerTemplate a ∈ st.defs.map Prod.fst := by
        by_contra hcontra
        exact hnew ((alistLookup_eq_none_iff _ _).mpr hcontra)
      have hred : processCpu sb powerTemplate st a =
          ⟨appendLines st.defs (chartNameOf sb powerTemplate a) (newLinesOf sb powerTemplate a),
           st.order, st.seen ++ [a.package]⟩ := by
        simp [processCpu, hnew, hmem, hperT]
      rw [hred]
      refine ⟨appendLines_pres
          (fun n t => t = powerTemplate ∧ n.data.head? = some 'p') _ _ _ hdefs,
        ?_, ?_, by simp [hmem]⟩
      · show packageLineCount _ = 3 * (st.seen ++ [a.package]).length
        rw [appendLines_plc_pkg _ _ _
              (fun e he => ((hdefs e he).1 ▸ rfl : e.2.tmpl.per = "package")) hk,
            hlen, hcount]
        simp [Nat.mul_add]
      · show (st.seen ++ [a.package]).Nodup
        simp [List.nodup_append, hnd, hmem]

theorem logical_step (sb : Option String) (t : Template) (st : ChartSt) (a : Assign)
    (hper : ¬(t.per = "package")) (c : Char) (l : List Char)
    (hchart : t.chart.data = c :: l) (hcp : ¬(c = 'p'))
    (hinv : ∀ e ∈ st.defs, e.2.tmpl.per = "package" → e.1.data.head? = some 'p') :
    (processCpu sb t st a).seen = st.seen ∧
    packageLineCount (processCpu sb t st a).defs = packageLineCount st.defs ∧
    (∀ e ∈ (processCpu sb t st a).defs,
      e.2.tmpl.per = "package" → e.1.data.head? = some 'p') := by
  have hkhead : ¬((chartNameOf sb t a).data.head? = some 'p') := by
    rw [chartNameOf_head sb t a c l hchart]
    intro hx
    exact hcp (Option.some.inj hx)
  by_cases hnew : alistLookup st.defs (chartNameOf sb t a) = none
  · have hinv1 : ∀ e ∈ st.defs ++ [(chartNameOf sb t a, (⟨t, []⟩ : ChartDef))],
        e.2.tmpl.per = "package" → e.1.data.head? = some 'p' := by
      intro e he hp
      rcases List.mem_append.mp he with h | h
      · exact hinv e h hp
      · rcases List.mem_singleton.mp h with rfl
        exact absurd hp hper
    have hred : processCpu sb t st a =
        ⟨appendLines (st.defs ++ [(chartNameOf sb t a, ⟨t, []⟩)]) (chartNameOf sb t a)
           (newLinesOf sb t a),
         st.order ++ [(chartNameOf sb t a, (a.package, a.core, a.cpuidx))],
         st.seen⟩ := by
      simp [processCpu, hnew, hper]
    rw [hred]
    refine ⟨rfl, ?_,
      appendLines_pres (fun n t2 => t2.per = "package" → n.data.head? = some 'p') _ _ _ hinv1⟩
    rw [show (⟨appendLines (st.defs ++ [(chartNameOf sb t a, ⟨t, []⟩)]) (chartNameOf sb t a)
           (newLinesOf sb t a),
         st.order ++ [(chartNameOf sb t a, (a.package, a.core, a.cpuidx))],
         st.seen⟩ : ChartSt).defs =
        appendLines (st.defs ++ [(chartNameOf sb t a, ⟨t, []⟩)]) (chartNameOf sb t a)
           (newLinesOf sb t a) from rfl,
      appendLines_plc_other _ _ _ hinv1 hkhead, packageLineCount_new_chart]
  · have hred : processCpu sb t st a =
        ⟨appendLines st.defs (chartNameOf sb t a) (newLinesOf sb t a), st.order, st.seen⟩ := by
      simp [processCpu, hnew, hper]
    rw [hred]
    refine ⟨rfl, ?_,
      appendLines_pres (fun n t2 => t2.per = "package" → n.data.head? = some 'p') _ _ _ hinv⟩
    rw [show (⟨appendLines st.defs (chartNameOf sb t a) (newLinesOf sb t a), st.order,
          st.seen⟩ : ChartSt).defs =
        appendLines st.defs (chartNameOf sb t a) (newLinesOf sb t a) from rfl,
      appendLines_plc_other _ _ _ hinv hkhead]

theorem power_fold (sb : Option String) : ∀ (cpus : List Assign) (st : ChartSt),
    (∀ e ∈ st.defs, e.2.tmpl = powerTemplate ∧ e.1.data.head? = some 'p') →
    packageLineCount st.defs = 3 * st.seen.length →
    st.seen.Nodup →
    ((∀ e ∈ (cpus.foldl (processCpu sb powerTemplate) st).defs,
        e.2.tmpl = powerTemplate ∧ e.1.data.head? = some 'p') ∧
     packageLineCount (cpus.foldl (processCpu sb powerTemplate) st).defs =
       3 * (cpus.foldl (processCpu sb powerTemplate) st).seen.length ∧
     (cpus.foldl (processCpu sb powerTemplate) st).seen.Nodup ∧
     (∀ p, p ∈ (cpus.foldl (processCpu sb powerTemplate) st).seen ↔
        p ∈ st.seen ∨ p ∈ cpus.map Assign.package)) := by
  intro cpus
  induction cpus with
  | nil =>
    intro st h1 h2 h3
    exact ⟨h1, h2, h3, fun p => by simp⟩
  | cons a rest ih =>
    intro st h1 h2 h3
    obtain ⟨g1, g2, g3, g4⟩ := power_step sb st a h1 h2 h3
    obtain ⟨f1, f2, f3, f4⟩ := ih (processCpu sb powerTemplate st a) g1 g2 g3
    rw [List.foldl_cons]
    refine ⟨f1, f2, f3, fun p => ?_⟩
    rw [f4 p, g4]
    by_cases hm : a.package ∈ st.seen
    · simp only [hm, if_true, List.append_nil, List.map_cons, List.mem_cons]
      constructor
      · rintro (h | h)
        · exact Or.inl h
        · exact Or.inr (Or.inr h)
      · rintro (h | h | h)
        · exact Or.inl h
        · exact Or.inl (h ▸ hm)
        · exact Or.inr h
    · simp only [hm, if_false, List.map_cons, List.mem_cons, List.mem_append,
        List.mem_singleton]
      tauto

theorem logical_fold (sb : Option String) (t : Template) (hper : ¬(t.per = "package"))
    (c : Char) (l : List Char) (hchart : t.chart.data = c :: l) (hcp : ¬(c = 'p')) :
    ∀ (cpus : List Assign) (st : ChartSt),
    (∀ e ∈ st.defs, e.2.tmpl.per = "package" → e.1.data.head? = some 'p') →
    ((cpus.foldl (processCpu sb t) st).seen = st.seen ∧
     packageLineCount (cpus.foldl (processCpu sb t) st).defs = packageLineCount st.defs ∧
     (∀ e ∈ (cpus.foldl (processCpu sb t) st).defs,
        e.2.tmpl.per = "package" → e.1.data.head? = some 'p')) := by
  intro cpus
  induction cpus with
  | nil =>
    intro st h
    exact ⟨rfl, rfl, h⟩
  | cons a rest ih =>
    intro st h
    obtain ⟨g1, g2, g3⟩ := logical_step sb t st a hper c l hchart hcp h
    obtain ⟨f1, f2, f3⟩ := ih (processCpu sb t st a) g3
    rw [List.foldl_cons]
    exact ⟨f1.trans g1, f2.trans g2, f3⟩

theorem inv1_fold (sb : Option String) (t : Template) : ∀ (cpus : List Assign) (st : ChartSt),
    st.defs.map Prod.fst = st.order.map Prod.fst →
    (st.order.map Prod.fst).Nodup →
    ((cpus.foldl (processCpu sb t) st).defs.map Prod.fst =
       (cpus.foldl (processCpu sb t) st).order.map Prod.fst ∧
     ((cpus.foldl (processCpu sb t) st).order.map Prod.fst).Nodup) := by
  intro cpus
  induction cpus with
  | nil =>
    intro st h1 h2
    exact ⟨h1, h2⟩
  | cons a rest ih =>
    intro st h1 h2
    obtain ⟨g1, g2⟩ := processCpu_inv1 sb t st a h1 h2
    rw [List.foldl_cons]
    exact ih (processCpu sb t st a) g1 g2

/-- C8: for every grouping mode and topology assignment, the Series
Assignment Builder never emits two series with the same name (the final
`self.order` list is duplicate-free), and the package-scoped template
contributes each package's dimensions exactly once regardless of how many
logical CPUs the package has: each package of the assignment is recorded
exactly once in `packages_seen`, and the package-scoped charts hold three
dimension lines per recorded package in total. -/
theorem series_unique_and_package_once (split_by : Option String)
    (assignment : List Assign) :
    (finalOrder split_by assignment).Nodup ∧
    (∀ p, p ∈ assignment.map Assign.package →
      (buildCharts split_by assignment).seen.count p = 1) ∧
    packageLineCount (buildCharts split_by assignment).defs =
      3 * (buildCharts split_by assignment).seen.length := by
  have hb : buildCharts split_by assignment =
      (sortAssign assignment).foldl (processCpu split_by busyMhzTemplate)
        ((sortAssign assignment).foldl (processCpu split_by avgMhzTemplate)
          ((sortAssign assignment).foldl (processCpu split_by powerTemplate)
            ⟨[], [], []⟩)) := rfl
  obtain ⟨p1, p2, p3, p4⟩ := power_fold split_by (sortAssign assignment) ⟨[], [], []⟩
    (by intro e he; simp at he) (by simp [packageLineCount]) List.nodup_nil
  have hinv3P : ∀ e ∈ ((sortAssign assignment).foldl (processCpu split_by powerTemplate)
      (⟨[], [], []⟩ : ChartSt)).defs, e.2.tmpl.per = "package" → e.1.data.head? = some 'p' :=
    fun e he _ => (p1 e he).2
  obtain ⟨a1, a2, a3⟩ := logical_fold split_by avgMhzTemplate (by decide) 'a'
    ("vg_mhz".data) (by decide) (by decide) (sortAssign assignment) _ hinv3P
  obtain ⟨b1, b2, b3⟩ := logical_fold split_by busyMhzTemplate (by decide) 'b'
    ("usy_mhz".data) (by decide) (by decide) (sortAssign assignment) _ a3
  have hseen : (buildCharts split_by assignment).seen =
      ((sortAssign assignment).foldl (processCpu split_by powerTemplate)
        (⟨[], [], []⟩ : ChartSt)).seen := by
    rw [hb]
    exact b1.trans a1
  have hcount2 : packageLineCount (buildCharts split_by assignment).defs =
      packageLineCount ((sortAssign assignment).foldl (processCpu split_by powerTemplate)
        (⟨[], [], []⟩ : ChartSt)).defs := by
    rw [hb]
    exact b2.trans a2
  refine ⟨?_, ?_, ?_⟩
  · obtain ⟨i1, i2⟩ := inv1_fold split_by powerTemplate (sortAssign assignment) ⟨[], [], []⟩
      rfl List.nodup_nil
    obtain ⟨j1, j2⟩ := inv1_fold split_by avgMhzTemplate (sortAssign assignment) _ i1 i2
    obtain ⟨k1, k2⟩ := inv1_fold split_by busyMhzTemplate (sortAssign assignment) _ j1 j2
    unfold finalOrder
    have hperm := List.perm_insertionSort (fun x y => tripleLe x.2 y.2 = true)
      (buildCharts split_by assignment).order
    exact ((hperm.map Prod.fst).nodup_iff).mpr (by rw [hb]; exact k2)
  · intro p hp
    have hpc : p ∈ (sortAssign assignment).map Assign.package := by
      have hperm : List.Perm (sortAssign assignment) assignment :=
        List.perm_insertionSort _ assignment
      exact ((hperm.map Assign.package).mem_iff).mpr hp
    have hmem : p ∈ (buildCharts split_by assignment).seen := by
      rw [hseen]
      exact (p4 p).mpr (Or.inr hpc)
    have hnodup : (buildCharts split_by assignment).seen.Nodup := by
      rw [hseen]
      exact p3
    exact List.count_eq_one_of_mem hnodup hmem
  · rw [hcount2, hseen]
    exact p2

/-- C8 witness: two CPUs in the same package 5 with `split_by = package`
contribute that package's dimensions exactly once. -/
theorem series_unique_and_package_once_witness :
    (buildCharts (some "package") [⟨0, 5, 0, 0⟩, ⟨1, 5, 1, 0⟩]).seen.count 5 = 1 :=
  (series_unique_and_package_once (some "package") [⟨0, 5, 0, 0⟩, ⟨1, 5, 1, 0⟩]).2.1 5
    (by decide)

end Turbostat
